import Mathlib

/-!
Verification of the media asset consistency engine of the flare-stack blog
platform, together with the editor-side image upload command.

The engine itself (upload / delete / rename / listing / reference tracking)
is exercised by the repository through its integration test suite; the
engine operations are modelled here from the specification, as computable
state-passing functions over an explicit engine state.  The editor image
upload command is embedded directly from the source of the ImageUpload
extension.
-/

/-- Modelled from the spec: one stored binary object and its metadata
(the repository's `MediaAsset` row owned by the Catalog Repository). -/
structure MediaAsset where
  key : String
  url : String
  fileName : String
  mimeType : String
  sizeInBytes : Nat
  width : Option Nat
  height : Option Nat
  createdAt : Nat
deriving DecidableEq, Repr

/-- Modelled from the spec: the upload input `{name, mimeType, content, sizeInBytes}`.
`declaredSize` is the caller-supplied size, which the engine must ignore in
favour of the actual byte length of `content`. -/
structure FileInput where
  name : String
  mimeType : String
  content : List Nat
  declaredSize : Nat
deriving DecidableEq, Repr

/-- Modelled from the spec: the error taxonomy of section 7
(upload-transport, catalog-insert, not-found, validation). -/
inductive MediaError where
  | uploadTransport (msg : String)
  | catalogInsert (msg : String)
  | notFound (key : String)
  | validation (msg : String)
deriving DecidableEq, Repr

/-- Modelled from the spec: the caller-visible state the Media Consistency
Engine acts on: the blob store (set of object keys), the catalog rows, the
Background Task Runner's pending compensating deletions, and the generator
for fresh keys / monotonic creation stamps. -/
structure EngineState where
  blobs : List String
  catalog : List MediaAsset
  pending : List String
  counter : Nat
deriving DecidableEq, Repr

/-- Modelled from the spec: a freshly generated unique object key. -/
def genKey (c : Nat) (name : String) : String :=
  "media-" ++ toString c ++ "-" ++ name

/-- Modelled from the spec: the public-URL-to-key mapping used at upload
time (the storage layer serves objects under `/images/<key>`). -/
def keyUrl (k : String) : String := "/images/" ++ k

/-- Modelled from the spec: `upload` writes the blob first, then inserts the
catalog row.  `putErr` / `insertErr` inject the two failure modes (blob
store write rejected; catalog insert failed).  On catalog-insert failure a
compensating blob deletion for the fresh key is scheduled on the Background
Task Runner and the call fails with a catalog-insert error. -/
def upload (putErr insertErr : Option String) (f : FileInput) (s : EngineState) :
    Except MediaError MediaAsset × EngineState :=
  if f.content.isEmpty then
    (Except.error (MediaError.validation "empty file"), s)
  else
    match putErr with
    | some m => (Except.error (MediaError.uploadTransport m), s)
    | none =>
      let k := genKey s.counter f.name
      let asset : MediaAsset :=
        { key := k, url := keyUrl k, fileName := f.name, mimeType := f.mimeType,
          sizeInBytes := f.content.length, width := none, height := none,
          createdAt := s.counter }
      match insertErr with
      | some m =>
        (Except.error (MediaError.catalogInsert ("Failed to insert media record: " ++ m)),
         { s with blobs := k :: s.blobs, counter := s.counter + 1,
                  pending := k :: s.pending })
      | none =>
        (Except.ok asset,
         { s with blobs := k :: s.blobs, counter := s.counter + 1,
                  catalog := asset :: s.catalog })

/-- Modelled from the spec: the Background Task Runner executes every
pending compensating deletion; a deletion of key `k` succeeds when `ok k`
is true, a failed deletion is logged and not retried (the blob stays). -/
def runPendingF (ok : String → Bool) (s : EngineState) : EngineState :=
  { s with blobs := s.blobs.filter (fun b => !(decide (b ∈ s.pending) && ok b)),
           pending := [] }

/-- Modelled from the spec: the test hook awaiting all pending background
tasks, with every deletion succeeding. -/
def runPending (s : EngineState) : EngineState := runPendingF (fun _ => true) s

/-- Modelled from the spec: `deleteImage` removes the catalog row (NotFound
when absent) and schedules the blob deletion as a background task. -/
def deleteImage (k : String) (s : EngineState) : Except MediaError Unit × EngineState :=
  if s.catalog.any (fun a => decide (a.key = k)) then
    (Except.ok (),
     { s with catalog := s.catalog.filter (fun a => !(decide (a.key = k))),
              pending := k :: s.pending })
  else
    (Except.error (MediaError.notFound k), s)

/-- Modelled from the spec: `updateMediaName` is a pure catalog mutation of
`fileName`; NotFound when the key is absent, no blob-store interaction. -/
def updateMediaName (k name : String) (s : EngineState) :
    Except MediaError Unit × EngineState :=
  if s.catalog.any (fun a => decide (a.key = k)) then
    (Except.ok (),
     { s with catalog :=
        s.catalog.map (fun a => if a.key = k then { a with fileName := name } else a) })
  else
    (Except.error (MediaError.notFound k), s)

/-- Modelled from the spec: sum of `sizeInBytes` across all catalog rows. -/
def getTotalMediaSize (s : EngineState) : Nat :=
  (s.catalog.map MediaAsset.sizeInBytes).sum

/-- Lower-cased character list of a string (case-insensitive matching). -/
def lcChars (s : String) : List Char := s.data.map Char.toLower

/-- Does `xs` occur at the head of `ys`? -/
def leadMatch : List Char → List Char → Bool
  | [], _ => true
  | _ :: _, [] => false
  | a :: as, b :: bs => a == b && leadMatch as bs

/-- Does `xs` occur contiguously somewhere inside `ys`? -/
def subMatch (xs : List Char) : List Char → Bool
  | [] => xs.isEmpty
  | b :: bs => leadMatch xs (b :: bs) || subMatch xs bs

/-- Modelled from the spec: the `search` filter is a case-insensitive
substring match on `fileName`; an absent filter matches everything. -/
def matchSearch (q : Option String) (name : String) : Bool :=
  match q with
  | none => true
  | some q => subMatch (lcChars q) (lcChars name)

/-- The pagination ordering key: creation stamp, ties broken by the asset
key, compared lexicographically. -/
def okey (a : MediaAsset) : Lex (Nat × String) := toLex (a.createdAt, a.key)

/-- The (total, transitive) ordering the listing query sorts by. -/
def keyLE (a b : MediaAsset) : Prop := okey a ≤ okey b

/-- The strict version of `keyLE`. -/
def mediaLt (a b : MediaAsset) : Prop := okey a < okey b

instance : DecidableRel keyLE :=
  fun a b => inferInstanceAs (Decidable (okey a ≤ okey b))

instance : IsTotal MediaAsset keyLE :=
  ⟨fun a b => le_total (okey a) (okey b)⟩

instance : IsTrans MediaAsset keyLE :=
  ⟨fun _ _ _ h h2 => le_trans h h2⟩

/-- An opaque pagination cursor: the ordering key of the last item seen. -/
abbrev Cursor := Lex (Nat × String)

/-- Modelled from the spec: rows strictly after the cursor (all rows for a
null cursor). -/
def afterCursor (c : Option Cursor) (a : MediaAsset) : Bool :=
  match c with
  | none => true
  | some c => decide (c < okey a)

/-- Modelled from the spec: the listing filter `{search?, cursor?, limit?}`. -/
structure ListFilter where
  search : Option String
  cursor : Option Cursor
  limit : Option Nat

/-- Modelled from the spec: the engine enforces the page-size default and
maximum itself (and never lets a page be empty-by-zero-limit). -/
def effLimit : Option Nat → Nat
  | none => 20
  | some n => min (max n 1) 100

/-- Modelled from the spec: the full (un-truncated) result set of a listing
query: catalog rows sorted by the pagination key, restricted to the search
filter and to rows strictly after the cursor.  A `getMediaList` page is a
prefix of this list; the union of all pages from a null cursor is exactly
`queryRows` with a null cursor. -/
def queryRows (s : EngineState) (q : Option String) (c : Option Cursor) : List MediaAsset :=
  (List.insertionSort keyLE s.catalog).filter
    (fun a => matchSearch q a.fileName && afterCursor c a)

/-- Modelled from the spec: one page of `getMediaList`, together with the
next cursor: null exactly when the page already exhausts the result set,
otherwise the ordering key of the page's last item. -/
def getMediaList (s : EngineState) (f : ListFilter) : List MediaAsset × Option Cursor :=
  ((queryRows s f.search f.cursor).take (effLimit f.limit),
   if effLimit f.limit < (queryRows s f.search f.cursor).length then
     ((queryRows s f.search f.cursor).take (effLimit f.limit)).getLast?.map okey
   else none)

/-- Following `getMediaList` pages from a cursor until the returned cursor
is null, concatenating the pages (with fuel for termination). -/
def paginateFrom (s : EngineState) (q : Option String) (lim : Option Nat) :
    Option Cursor → Nat → List MediaAsset
  | _, 0 => []
  | c, fuel + 1 =>
    ((getMediaList s { search := q, cursor := c, limit := lim }).2).elim
      (getMediaList s { search := q, cursor := c, limit := lim }).1
      (fun c2 =>
        (getMediaList s { search := q, cursor := c, limit := lim }).1 ++
          paginateFrom s q lim (some c2) fuel)

/-- Modelled from the spec: a post's structured rich-text document body: a
tree of dynamically typed nodes.  A node may lack a type tag or a `src`
attribute (both `Option`-typed), which is exactly how malformed or
partially-typed nodes arise. -/
inductive DocNode where
  | mk (typeName : Option String) (srcAttr : Option String) (content : List DocNode)

/-- Modelled from the spec: reverse the public-URL-to-key mapping used at
upload time; any `src` that is not a stored-media URL yields no key. -/
def keyFromSrc (src : String) : Option String :=
  if leadMatch (keyUrl "").data src.data then some (String.mk (src.data.drop 8)) else none

mutual
/-- Modelled from the spec: the Reference Scanner traverses the full node
tree; a node contributes a key exactly when its type tags it as an image
embed and its `src` attribute resolves to a stored media key; every other
node (malformed ones included) is skipped, never an error. -/
def scanNode : DocNode → List String
  | DocNode.mk t src c =>
    (if t = some "image" then
       (match src with
        | some u => (keyFromSrc u).toList
        | none => [])
     else []) ++ scanList c

/-- Scan a forest of document nodes, in order. -/
def scanList : List DocNode → List String
  | [] => []
  | n :: ns => scanNode n ++ scanList ns
end

/-- Modelled from the spec: the reference set of a post body: the scanned
keys with duplicates removed (a key embedded twice counts once). -/
def extractMediaKeys (d : DocNode) : List String := (scanNode d).dedup

/-- A document tree contains a well-formed embed of media key `k`: some
node is typed `image` and carries a `src` attribute that the URL-to-key
mapping resolves to `k`. -/
inductive HasEmbed : DocNode → String → Prop where
  | self (t src : Option String) (c : List DocNode) (u k : String) :
      t = some "image" → src = some u → keyFromSrc u = some k →
      HasEmbed (DocNode.mk t src c) k
  | child (t src : Option String) (c : List DocNode) (n : DocNode) (k : String) :
      n ∈ c → HasEmbed n k → HasEmbed (DocNode.mk t src c) k

/-- Modelled from the spec: the post→media-keys index recomputed from every
post's current document body (overwrite semantics). -/
def buildIndex (posts : List (Nat × DocNode)) : List (Nat × List String) :=
  posts.map (fun p => (p.1, extractMediaKeys p.2))

/-- Modelled from the spec: replace the index entry of one post by the
reference set of its new body, pruning the stale entry. -/
def syncPostMedia (pid : Nat) (body : DocNode) (idx : List (Nat × List String)) :
    List (Nat × List String) :=
  (pid, extractMediaKeys body) :: idx.filter (fun p => !(decide (p.1 = pid)))

/-- Modelled from the spec: is the key referenced by at least one post? -/
def isMediaInUse (idx : List (Nat × List String)) (k : String) : Bool :=
  idx.any (fun p => decide (k ∈ p.2))

/-- Modelled from the spec: the posts whose current reference set contains
the key. -/
def getLinkedPosts (idx : List (Nat × List String)) (k : String) : List Nat :=
  (idx.filter (fun p => decide (k ∈ p.2))).map Prod.fst

/-- Modelled from the spec: the batched membership check: the subset of the
candidate keys referenced by at least one post, in one pass over the index. -/
def getLinkedMediaKeys (idx : List (Nat × List String)) (keys : List String) :
    List String :=
  keys.filter (fun k => isMediaInUse idx k)

/-- The result the editor's upload callback resolves with
(`ImageUploadResult` in the source: url plus optional width/height). -/
structure ImageUploadResult where
  url : String
  width : Option Nat
  height : Option Nat
deriving DecidableEq, Repr

/-- The attributes an editor image node carries (src/alt/width/height;
absent attributes are `none`, as in the dynamically typed source). -/
structure ImgAttrs where
  src : Option String
  alt : Option String
  width : Option Nat
  height : Option Nat
deriving DecidableEq, Repr

/-- A ProseMirror document node: type name, attributes, child nodes. -/
inductive PMNode where
  | mk (typeName : String) (attrs : ImgAttrs) (children : List PMNode)

/-- JavaScript `a || b` on optional numbers: `a` unless it is absent or
zero (both falsy), in which case `b`. -/
def jsOrN : Option Nat → Option Nat → Option Nat
  | some n, b => if n = 0 then b else some n
  | none, b => b

/-- The predicate the traversals in `uploadImage` test on each descendant:
`descendant.type.name === "image" && descendant.attrs.src === url`. -/
def isImgMatch (u : String) (t : String) (a : ImgAttrs) : Bool :=
  decide (t = "image") && decide (a.src = some u)

/-- The attribute update of the success path:
`{...descendant.attrs, src: result.url, width: result.width || attrs.width,
height: result.height || attrs.height}`. -/
def updAttrs (r : ImageUploadResult) (a : ImgAttrs) : ImgAttrs :=
  { a with src := some r.url,
           width := jsOrN r.width a.width,
           height := jsOrN r.height a.height }

/-- The success-path traversal of `uploadImage`: walk the document in
ProseMirror `descendants` order (pre-order; a handled node's children are
skipped; once `replaced` is set every later callback returns immediately)
and set the markup of the first image node whose `src` is the blob URL.
Returns the new forest and the `replaced` flag. -/
def replaceFirstList (u : String) (r : ImageUploadResult) :
    List PMNode → List PMNode × Bool
  | [] => ([], false)
  | PMNode.mk t a c :: ns =>
    if isImgMatch u t a then (PMNode.mk t (updAttrs r a) c :: ns, true)
    else
      let p := replaceFirstList u r c
      if p.2 then (PMNode.mk t a p.1 :: ns, true)
      else
        let q := replaceFirstList u r ns
        (PMNode.mk t a c :: q.1, q.2)

/-- The failure-path traversal (`removePlaceholder`): same order and the
same `found` short-circuit, but `tr.delete` removes the whole first
matching node.  Returns the new forest and the `found` flag. -/
def removeFirstList (u : String) : List PMNode → List PMNode × Bool
  | [] => ([], false)
  | PMNode.mk t a c :: ns =>
    if isImgMatch u t a then (ns, true)
    else
      let p := removeFirstList u c
      if p.2 then (PMNode.mk t a p.1 :: ns, true)
      else
        let q := removeFirstList u ns
        (PMNode.mk t a c :: q.1, q.2)

/-- The optimistic placeholder node `schema.nodes.image.create({src:
blobUrl, alt: file.name})`. -/
def placeholderNode (u fileName : String) : PMNode :=
  PMNode.mk "image" { src := some u, alt := some fileName, width := none, height := none } []

/-- `tr.insert(insertPos, node)` at the top level of the document forest. -/
def insertNode (i : Nat) (n : PMNode) (l : List PMNode) : List PMNode :=
  l.take i ++ n :: l.drop i

/-- How the `onUpload(file)` promise settles. -/
inductive UploadOutcome where
  | resolved (r : ImageUploadResult)
  | rejected (e : String)

/-- The caller-observable outcome of one `uploadImage` command invocation:
the final document forest, the blob URLs revoked, the arguments `onError`
was invoked with, the command's return value, and any exception that
escaped to the command's caller. -/
structure CmdResult where
  doc : List PMNode
  revoked : List String
  onErrorCalls : List String
  returned : Bool
  uncaught : Option String

/-- The `uploadImage` command of the ImageUpload extension, embedded as one
function of the document, the insert position, the created blob URL, the
`dispatch` flag, how the upload promise settles, whether the editor view is
destroyed by the time the deferred callbacks run, and whether an `onError`
option was provided.  The `.catch` handler in the source is what makes
`uncaught` always `none` on rejection; on a destroyed view the success path
still revokes the blob URL, the failure path returns before revoking. -/
def uploadImageCommand (doc : List PMNode) (pos : Nat) (fileName u : String)
    (dispatch : Bool) (outcome : UploadOutcome) (destroyed : Bool)
    (hasOnError : Bool) : CmdResult :=
  let doc1 := if dispatch then insertNode pos (placeholderNode u fileName) doc else doc
  match outcome with
  | UploadOutcome.resolved r =>
    if destroyed then
      { doc := doc1, revoked := [u], onErrorCalls := [], returned := true, uncaught := none }
    else
      { doc := (replaceFirstList u r doc1).1, revoked := [u], onErrorCalls := [],
        returned := true, uncaught := none }
  | UploadOutcome.rejected e =>
    if destroyed then
      { doc := doc1, revoked := [],
        onErrorCalls := if hasOnError then [e] else [], returned := true, uncaught := none }
    else
      { doc := (removeFirstList u doc1).1, revoked := [u],
        onErrorCalls := if hasOnError then [e] else [], returned := true, uncaught := none }

/-- The pre-order (document-order) list of `(type, attrs)` pairs of a
forest: the sequence `doc.descendants` visits. -/
def flatL : List PMNode → List (String × ImgAttrs)
  | [] => []
  | PMNode.mk t a c :: ns => (t, a) :: (flatL c ++ flatL ns)

/-- The attribute-free skeleton of a forest (types and tree structure). -/
def shapeL : List PMNode → List PMNode
  | [] => []
  | PMNode.mk t _ c :: ns =>
    PMNode.mk t { src := none, alt := none, width := none, height := none } (shapeL c) :: shapeL ns

/-- Does any visited `(type, attrs)` pair match the image-with-this-src
test? -/
def hasMatchFlat (u : String) (l : List (String × ImgAttrs)) : Bool :=
  l.any (fun p => isImgMatch u p.1 p.2)

/-- The claim's replacement rule, stated on the flat document-order list:
update the attributes of the first matching entry, leave everything else
untouched. -/
def specUpdateFirst (u : String) (r : ImageUploadResult) :
    List (String × ImgAttrs) → List (String × ImgAttrs)
  | [] => []
  | (t, a) :: rest =>
    if isImgMatch u t a then (t, updAttrs r a) :: rest
    else (t, a) :: specUpdateFirst u r rest

/-- No node anywhere in the forest carries `src = some u` (freshness of a
newly created blob URL). -/
def noSrcL (u : String) : List PMNode → Bool
  | [] => true
  | PMNode.mk _ a c :: ns => !(decide (a.src = some u)) && noSrcL u c && noSrcL u ns

/-- A catalog row with its mutable display name erased: the part of a
`MediaAsset` that a rename must not touch. -/
def stripName (a : MediaAsset) : MediaAsset := { a with fileName := "" }

/-! ## Basic lemmas about the search match and the listing query -/

theorem leadMatch_refl (xs : List Char) : leadMatch xs xs = true := by
  induction xs with
  | nil => rfl
  | cons a as ih => simp [leadMatch, ih]

theorem subMatch_self (xs : List Char) : subMatch xs xs = true := by
  cases xs with
  | nil => rfl
  | cons a as => simp [subMatch, leadMatch_refl]

theorem matchSearch_self (n : String) : matchSearch (some n) n = true :=
  subMatch_self _

theorem mem_queryRows {s : EngineState} {q : Option String} {c : Option Cursor}
    {a : MediaAsset} :
    a ∈ queryRows s q c ↔
      a ∈ s.catalog ∧ matchSearch q a.fileName = true ∧ afterCursor c a = true := by
  simp [queryRows, List.mem_filter, and_assoc]

theorem mem_getMediaList_mem_catalog {s : EngineState} {f : ListFilter}
    {a : MediaAsset} (h : a ∈ (getMediaList s f).1) : a ∈ s.catalog := by
  have h2 : a ∈ (queryRows s f.search f.cursor).take (effLimit f.limit) := h
  exact (mem_queryRows.mp (List.mem_of_mem_take h2)).1

/-! ## C1: compensating rollback when the catalog insert fails -/

/-- Claim C1: when the blob-store put succeeds and the catalog insert then
fails, the upload call fails with a catalog-insert error (never an
upload-transport error), the blob was written, a compensating blob deletion
for the fresh key is scheduled on the Background Task Runner, and once all
pending background tasks complete the blob store no longer contains that
key and the catalog contains no row for it. -/
theorem upload_rollback_compensates (f : FileInput) (s : EngineState) (m : String)
    (hc : f.content ≠ [])
    (hfresh : ∀ a ∈ s.catalog, a.key ≠ genKey s.counter f.name) :
    (upload none (some m) f s).1 =
      Except.error (MediaError.catalogInsert ("Failed to insert media record: " ++ m)) ∧
    (∀ m2, (upload none (some m) f s).1 ≠ Except.error (MediaError.uploadTransport m2)) ∧
    genKey s.counter f.name ∈ ((upload none (some m) f s).2).blobs ∧
    genKey s.counter f.name ∈ ((upload none (some m) f s).2).pending ∧
    genKey s.counter f.name ∉ (runPending ((upload none (some m) f s).2)).blobs ∧
    (runPending ((upload none (some m) f s).2)).pending = [] ∧
    (∀ a ∈ (runPending ((upload none (some m) f s).2)).catalog,
      a.key ≠ genKey s.counter f.name) := by
  have hni : f.content.isEmpty = false := List.isEmpty_eq_false.mpr hc
  refine ⟨?_, ?_, ?_, ?_, ?_, ?_, ?_⟩
  · simp [upload, hni]
  · intro m2
    simp [upload, hni]
  · simp [upload, hni]
  · simp [upload, hni]
  · simp [upload, hni, runPending, runPendingF, List.mem_filter]
  · simp [upload, hni, runPending, runPendingF]
  · intro a ha
    have ha2 : a ∈ s.catalog := by
      simpa [upload, hni, runPending, runPendingF] using ha
    exact hfresh a ha2

/-- Claim C1 witness at a concrete upload against a one-row state. -/
theorem upload_rollback_compensates_witness :
    ((⟨"f.png", "image/png", [1, 2], 7⟩ : FileInput).content ≠ [] ∧
      ∀ a ∈ (⟨["b0"], [], [], 5⟩ : EngineState).catalog,
        a.key ≠ genKey 5 "f.png") ∧
    ((upload none (some "DB Error") ⟨"f.png", "image/png", [1, 2], 7⟩
        ⟨["b0"], [], [], 5⟩).1 =
      Except.error (MediaError.catalogInsert ("Failed to insert media record: " ++ "DB Error")) ∧
    (∀ m2, (upload none (some "DB Error") ⟨"f.png", "image/png", [1, 2], 7⟩
        ⟨["b0"], [], [], 5⟩).1 ≠ Except.error (MediaError.uploadTransport m2)) ∧
    genKey 5 "f.png" ∈ ((upload none (some "DB Error") ⟨"f.png", "image/png", [1, 2], 7⟩
        ⟨["b0"], [], [], 5⟩).2).blobs ∧
    genKey 5 "f.png" ∈ ((upload none (some "DB Error") ⟨"f.png", "image/png", [1, 2], 7⟩
        ⟨["b0"], [], [], 5⟩).2).pending ∧
    genKey 5 "f.png" ∉ (runPending ((upload none (some "DB Error")
        ⟨"f.png", "image/png", [1, 2], 7⟩ ⟨["b0"], [], [], 5⟩).2)).blobs ∧
    (runPending ((upload none (some "DB Error") ⟨"f.png", "image/png", [1, 2], 7⟩
        ⟨["b0"], [], [], 5⟩).2)).pending = [] ∧
    (∀ a ∈ (runPending ((upload none (some "DB Error") ⟨"f.png", "image/png", [1, 2], 7⟩
        ⟨["b0"], [], [], 5⟩).2)).catalog, a.key ≠ genKey 5 "f.png")) :=
  ⟨⟨by decide, by decide⟩,
   upload_rollback_compensates ⟨"f.png", "image/png", [1, 2], 7⟩
     ⟨["b0"], [], [], 5⟩ "DB Error" (by decide) (by decide)⟩

/-! ## C2: delete removes the catalog row and schedules blob cleanup -/

/-- Claim C2: `deleteImage` on a present key succeeds, removes the catalog
row synchronously (the caller-visible durability boundary) while leaving
the blob store untouched at return time, and schedules the blob deletion as
a background task whose outcome never changes the caller-visible catalog;
after all pending background tasks complete the blob store no longer
contains the key and no `getMediaList` page contains an item with it.  On
an absent key it fails with NotFound and changes nothing. -/
theorem deleteImage_removes_and_schedules (k k2 : String) (s : EngineState)
    (f : ListFilter)
    (hmem : ∃ a ∈ s.catalog, a.key = k)
    (habs : ∀ a ∈ s.catalog, a.key ≠ k2) :
    (deleteImage k s).1 = Except.ok () ∧
    ((deleteImage k s).2).blobs = s.blobs ∧
    k ∈ ((deleteImage k s).2).pending ∧
    (∀ a ∈ ((deleteImage k s).2).catalog, a.key ≠ k) ∧
    (∀ okf : String → Bool,
      (runPendingF okf ((deleteImage k s).2)).catalog = ((deleteImage k s).2).catalog) ∧
    k ∉ (runPending ((deleteImage k s).2)).blobs ∧
    (∀ a ∈ (getMediaList (runPending ((deleteImage k s).2)) f).1, a.key ≠ k) ∧
    deleteImage k2 s = (Except.error (MediaError.notFound k2), s) := by
  have hany : s.catalog.any (fun a => decide (a.key = k)) = true := by
    rcases hmem with ⟨a, ha, hak⟩
    exact List.any_eq_true.mpr ⟨a, ha, by simp [hak]⟩
  have hany2 : s.catalog.any (fun a => decide (a.key = k2)) = false := by
    rw [Bool.eq_false_iff]
    intro h
    rcases List.any_eq_true.mp h with ⟨a, ha, hak⟩
    exact habs a ha (by simpa using hak)
  have hcat : ∀ a ∈ ((deleteImage k s).2).catalog, a.key ≠ k := by
    intro a ha
    have ha2 : a ∈ s.catalog.filter (fun a => !(decide (a.key = k))) := by
      simpa [deleteImage, hany] using ha
    have := (List.mem_filter.mp ha2).2
    simpa using this
  refine ⟨?_, ?_, ?_, hcat, ?_, ?_, ?_, ?_⟩
  · simp [deleteImage, hany]
  · simp [deleteImage, hany]
  · simp [deleteImage, hany]
  · intro okf
    simp [runPendingF]
  · simp [deleteImage, hany, runPending, runPendingF, List.mem_filter]
  · intro a ha
    have ha2 : a ∈ (runPending ((deleteImage k s).2)).catalog :=
      mem_getMediaList_mem_catalog ha
    have ha3 : a ∈ ((deleteImage k s).2).catalog := by
      simpa [runPending, runPendingF] using ha2
    exact hcat a ha3
  · simp [deleteImage, hany2]

/-- Claim C2 witness at a concrete two-row state. -/
theorem deleteImage_removes_and_schedules_witness :
    ((∃ a ∈ (⟨["ka", "kb"],
        [⟨"ka", "/images/ka", "a.png", "image/png", 3, none, none, 0⟩,
         ⟨"kb", "/images/kb", "b.png", "image/png", 4, none, none, 1⟩],
        [], 2⟩ : EngineState).catalog, a.key = "ka") ∧
      (∀ a ∈ (⟨["ka", "kb"],
        [⟨"ka", "/images/ka", "a.png", "image/png", 3, none, none, 0⟩,
         ⟨"kb", "/images/kb", "b.png", "image/png", 4, none, none, 1⟩],
        [], 2⟩ : EngineState).catalog, a.key ≠ "zz")) ∧
    ((deleteImage "ka" ⟨["ka", "kb"],
        [⟨"ka", "/images/ka", "a.png", "image/png", 3, none, none, 0⟩,
         ⟨"kb", "/images/kb", "b.png", "image/png", 4, none, none, 1⟩],
        [], 2⟩).1 = Except.ok () ∧
    ((deleteImage "ka" ⟨["ka", "kb"],
        [⟨"ka", "/images/ka", "a.png", "image/png", 3, none, none, 0⟩,
         ⟨"kb", "/images/kb", "b.png", "image/png", 4, none, none, 1⟩],
        [], 2⟩).2).blobs = ["ka", "kb"] ∧
    "ka" ∈ ((deleteImage "ka" ⟨["ka", "kb"],
        [⟨"ka", "/images/ka", "a.png", "image/png", 3, none, none, 0⟩,
         ⟨"kb", "/images/kb", "b.png", "image/png", 4, none, none, 1⟩],
        [], 2⟩).2).pending ∧
    (∀ a ∈ ((deleteImage "ka" ⟨["ka", "kb"],
        [⟨"ka", "/images/ka", "a.png", "image/png", 3, none, none, 0⟩,
         ⟨"kb", "/images/kb", "b.png", "image/png", 4, none, none, 1⟩],
        [], 2⟩).2).catalog, a.key ≠ "ka") ∧
    (∀ okf : String → Bool,
      (runPendingF okf ((deleteImage "ka" ⟨["ka", "kb"],
        [⟨"ka", "/images/ka", "a.png", "image/png", 3, none, none, 0⟩,
         ⟨"kb", "/images/kb", "b.png", "image/png", 4, none, none, 1⟩],
        [], 2⟩).2)).catalog =
        ((deleteImage "ka" ⟨["ka", "kb"],
        [⟨"ka", "/images/ka", "a.png", "image/png", 3, none, none, 0⟩,
         ⟨"kb", "/images/kb", "b.png", "image/png", 4, none, none, 1⟩],
        [], 2⟩).2).catalog) ∧
    "ka" ∉ (runPending ((deleteImage "ka" ⟨["ka", "kb"],
        [⟨"ka", "/images/ka", "a.png", "image/png", 3, none, none, 0⟩,
         ⟨"kb", "/images/kb", "b.png", "image/png", 4, none, none, 1⟩],
        [], 2⟩).2)).blobs ∧
    (∀ a ∈ (getMediaList (runPending ((deleteImage "ka" ⟨["ka", "kb"],
        [⟨"ka", "/images/ka", "a.png", "image/png", 3, none, none, 0⟩,
         ⟨"kb", "/images/kb", "b.png", "image/png", 4, none, none, 1⟩],
        [], 2⟩).2)) ⟨none, none, none⟩).1, a.key ≠ "ka") ∧
    deleteImage "zz" ⟨["ka", "kb"],
        [⟨"ka", "/images/ka", "a.png", "image/png", 3, none, none, 0⟩,
         ⟨"kb", "/images/kb", "b.png", "image/png", 4, none, none, 1⟩],
        [], 2⟩ =
      (Except.error (MediaError.notFound "zz"),
       ⟨["ka", "kb"],
        [⟨"ka", "/images/ka", "a.png", "image/png", 3, none, none, 0⟩,
         ⟨"kb", "/images/kb", "b.png", "image/png", 4, none, none, 1⟩],
        [], 2⟩)) :=
  ⟨⟨by decide, by decide⟩,
   deleteImage_removes_and_schedules "ka" "zz" _ ⟨none, none, none⟩
     (by decide) (by decide)⟩

/-! ## C7: rename is a pure catalog mutation of the display name -/

/-- Claim C7: `updateMediaName` on a present key succeeds, touches neither
the blob store nor the task queue nor the key generator, changes no field
of any catalog row other than `fileName` (and keeps row order and count),
leaves rows with other keys entirely unchanged, renames every row with the
target key, and the renamed asset is found by a subsequent fileName search
for the new name.  On an absent key it fails with NotFound and changes
nothing. -/
theorem updateMediaName_pure_catalog (k name k2 : String) (s : EngineState)
    (hmem : ∃ a ∈ s.catalog, a.key = k)
    (habs : ∀ a ∈ s.catalog, a.key ≠ k2) :
    (updateMediaName k name s).1 = Except.ok () ∧
    ((updateMediaName k name s).2).blobs = s.blobs ∧
    ((updateMediaName k name s).2).pending = s.pending ∧
    ((updateMediaName k name s).2).counter = s.counter ∧
    ((updateMediaName k name s).2).catalog.map stripName = s.catalog.map stripName ∧
    (∀ a ∈ s.catalog, a.key ≠ k → a ∈ ((updateMediaName k name s).2).catalog) ∧
    (∀ a ∈ ((updateMediaName k name s).2).catalog, a.key = k → a.fileName = name) ∧
    (∃ a ∈ queryRows ((updateMediaName k name s).2) (some name) none,
        a.key = k ∧ a.fileName = name) ∧
    updateMediaName k2 name s = (Except.error (MediaError.notFound k2), s) := by
  have hany : s.catalog.any (fun a => decide (a.key = k)) = true := by
    rcases hmem with ⟨a, ha, hak⟩
    exact List.any_eq_true.mpr ⟨a, ha, by simp [hak]⟩
  have hany2 : s.catalog.any (fun a => decide (a.key = k2)) = false := by
    rw [Bool.eq_false_iff]
    intro h
    rcases List.any_eq_true.mp h with ⟨a, ha, hak⟩
    exact habs a ha (by simpa using hak)
  have hcat : ((updateMediaName k name s).2).catalog =
      s.catalog.map (fun a => if a.key = k then { a with fileName := name } else a) := by
    simp [updateMediaName, hany]
  refine ⟨?_, ?_, ?_, ?_, ?_, ?_, ?_, ?_, ?_⟩
  · simp [updateMediaName, hany]
  · simp [updateMediaName, hany]
  · simp [updateMediaName, hany]
  · simp [updateMediaName, hany]
  · rw [hcat, List.map_map]
    refine List.map_congr_left ?_
    intro a _
    by_cases h : a.key = k <;> simp [h, stripName, Function.comp]
  · intro a ha hk
    rw [hcat]
    exact List.mem_map.mpr ⟨a, ha, by simp [hk]⟩
  · intro a ha hk
    rw [hcat] at ha
    rcases List.mem_map.mp ha with ⟨b, _, hb⟩
    by_cases h : b.key = k
    · rw [← hb]; simp [h]
    · exfalso
      apply h
      rw [← hb] at hk
      simp [h] at hk
  · rcases hmem with ⟨a, ha, hak⟩
    refine ⟨{ a with fileName := name }, ?_, by simp [hak], rfl⟩
    apply mem_queryRows.mpr
    refine ⟨?_, ?_, rfl⟩
    · rw [hcat]
      exact List.mem_map.mpr ⟨a, ha, by simp [hak]⟩
    · exact matchSearch_self name
  · simp [updateMediaName, hany2]

/-- Claim C7 witness at a concrete two-row state. -/
theorem updateMediaName_pure_catalog_witness :
    ((∃ a ∈ (⟨["ka"],
        [⟨"ka", "/images/ka", "old.png", "image/png", 3, none, none, 0⟩,
         ⟨"kb", "/images/kb", "b.png", "image/png", 4, none, none, 1⟩],
        [], 2⟩ : EngineState).catalog, a.key = "ka") ∧
      (∀ a ∈ (⟨["ka"],
        [⟨"ka", "/images/ka", "old.png", "image/png", 3, none, none, 0⟩,
         ⟨"kb", "/images/kb", "b.png", "image/png", 4, none, none, 1⟩],
        [], 2⟩ : EngineState).catalog, a.key ≠ "zz")) ∧
    ((updateMediaName "ka" "new-fancy-name.png" ⟨["ka"],
        [⟨"ka", "/images/ka", "old.png", "image/png", 3, none, none, 0⟩,
         ⟨"kb", "/images/kb", "b.png", "image/png", 4, none, none, 1⟩],
        [], 2⟩).1 = Except.ok () ∧
    ((updateMediaName "ka" "new-fancy-name.png" ⟨["ka"],
        [⟨"ka", "/images/ka", "old.png", "image/png", 3, none, none, 0⟩,
         ⟨"kb", "/images/kb", "b.png", "image/png", 4, none, none, 1⟩],
        [], 2⟩).2).blobs = ["ka"] ∧
    ((updateMediaName "ka" "new-fancy-name.png" ⟨["ka"],
        [⟨"ka", "/images/ka", "old.png", "image/png", 3, none, none, 0⟩,
         ⟨"kb", "/images/kb", "b.png", "image/png", 4, none, none, 1⟩],
        [], 2⟩).2).pending = [] ∧
    ((updateMediaName "ka" "new-fancy-name.png" ⟨["ka"],
        [⟨"ka", "/images/ka", "old.png", "image/png", 3, none, none, 0⟩,
         ⟨"kb", "/images/kb", "b.png", "image/png", 4, none, none, 1⟩],
        [], 2⟩).2).counter = 2 ∧
    ((updateMediaName "ka" "new-fancy-name.png" ⟨["ka"],
        [⟨"ka", "/images/ka", "old.png", "image/png", 3, none, none, 0⟩,
         ⟨"kb", "/images/kb", "b.png", "image/png", 4, none, none, 1⟩],
        [], 2⟩).2).catalog.map stripName =
      (⟨["ka"],
        [⟨"ka", "/images/ka", "old.png", "image/png", 3, none, none, 0⟩,
         ⟨"kb", "/images/kb", "b.png", "image/png", 4, none, none, 1⟩],
        [], 2⟩ : EngineState).catalog.map stripName ∧
    (∀ a ∈ (⟨["ka"],
        [⟨"ka", "/images/ka", "old.png", "image/png", 3, none, none, 0⟩,
         ⟨"kb", "/images/kb", "b.png", "image/png", 4, none, none, 1⟩],
        [], 2⟩ : EngineState).catalog, a.key ≠ "ka" →
      a ∈ ((updateMediaName "ka" "new-fancy-name.png" ⟨["ka"],
        [⟨"ka", "/images/ka", "old.png", "image/png", 3, none, none, 0⟩,
         ⟨"kb", "/images/kb", "b.png", "image/png", 4, none, none, 1⟩],
        [], 2⟩).2).catalog) ∧
    (∀ a ∈ ((updateMediaName "ka" "new-fancy-name.png" ⟨["ka"],
        [⟨"ka", "/images/ka", "old.png", "image/png", 3, none, none, 0⟩,
         ⟨"kb", "/images/kb", "b.png", "image/png", 4, none, none, 1⟩],
        [], 2⟩).2).catalog, a.key = "ka" → a.fileName = "new-fancy-name.png") ∧
    (∃ a ∈ queryRows ((updateMediaName "ka" "new-fancy-name.png" ⟨["ka"],
        [⟨"ka", "/images/ka", "old.png", "image/png", 3, none, none, 0⟩,
         ⟨"kb", "/images/kb", "b.png", "image/png", 4, none, none, 1⟩],
        [], 2⟩).2) (some "new-fancy-name.png") none,
        a.key = "ka" ∧ a.fileName = "new-fancy-name.png") ∧
    updateMediaName "zz" "new-fancy-name.png" ⟨["ka"],
        [⟨"ka", "/images/ka", "old.png", "image/png", 3, none, none, 0⟩,
         ⟨"kb", "/images/kb", "b.png", "image/png", 4, none, none, 1⟩],
        [], 2⟩ =
      (Except.error (MediaError.notFound "zz"),
       ⟨["ka"],
        [⟨"ka", "/images/ka", "old.png", "image/png", 3, none, none, 0⟩,
         ⟨"kb", "/images/kb", "b.png", "image/png", 4, none, none, 1⟩],
        [], 2⟩)) :=
  ⟨⟨by decide, by decide⟩,
   updateMediaName_pure_catalog "ka" "new-fancy-name.png" "zz" _
     (by decide) (by decide)⟩

/-! ## C8: the search filter selects exactly the matching file names -/

/-- Claim C8: for every catalog state and search string, the search query
returns exactly the catalog rows whose `fileName` matches the
case-insensitive substring test: membership in the result is equivalent to
catalog membership plus a match, and the result is a permutation of the
matching rows of the catalog (so zero, one or several matches are all
covered); in particular, with one asset named so it matches and every
other asset not matching, the query returns exactly that one asset. -/
theorem search_exact_match (s : EngineState) (q : String) (a : MediaAsset) :
    (a ∈ queryRows s (some q) none ↔
      a ∈ s.catalog ∧ matchSearch (some q) a.fileName = true) ∧
    List.Perm (queryRows s (some q) none)
      (s.catalog.filter (fun b => matchSearch (some q) b.fileName)) ∧
    (∀ (u : MediaAsset) (pre post : List MediaAsset),
      s.catalog = pre ++ u :: post →
      matchSearch (some q) u.fileName = true →
      (∀ b ∈ pre ++ post, matchSearch (some q) b.fileName = false) →
      queryRows s (some q) none = [u]) := by
  have hperm : List.Perm (queryRows s (some q) none)
      (s.catalog.filter (fun b => matchSearch (some q) b.fileName)) := by
    have heq : queryRows s (some q) none =
        (List.insertionSort keyLE s.catalog).filter
          (fun b => matchSearch (some q) b.fileName) := by
      unfold queryRows
      apply List.filter_congr
      intro b _
      simp [afterCursor]
    rw [heq]
    exact (List.perm_insertionSort keyLE s.catalog).filter _
  refine ⟨?_, hperm, ?_⟩
  · rw [mem_queryRows]
    simp [afterCursor]
  · intro u pre post hcat hu hothers
    have hfil : s.catalog.filter (fun b => matchSearch (some q) b.fileName) = [u] := by
      rw [hcat, List.filter_append]
      have h1 : pre.filter (fun b => matchSearch (some q) b.fileName) = [] := by
        apply List.filter_eq_nil_iff.mpr
        intro b hb
        simp [hothers b (List.mem_append.mpr (Or.inl hb))]
      have h2 : (u :: post).filter (fun b => matchSearch (some q) b.fileName) = [u] := by
        rw [List.filter_cons_of_pos (by simp [hu])]
        have h3 : post.filter (fun b => matchSearch (some q) b.fileName) = [] := by
          apply List.filter_eq_nil_iff.mpr
          intro b hb
          simp [hothers b (List.mem_append.mpr (Or.inr hb))]
        rw [h3]
      rw [h1, h2, List.nil_append]
    exact List.perm_singleton.mp (hfil ▸ hperm)

/-- Claim C8 witness: `"special-unique-file.png"` among unrelated files,
queried with `search = "special-unique"`, with the singleton clause
discharged at that concrete catalog. -/
theorem search_exact_match_witness :
    (((⟨"k2", "/images/k2", "special-unique-file.png", "image/png", 2, none, none, 1⟩ :
          MediaAsset) ∈
        queryRows ⟨[], [⟨"k1", "/images/k1", "cat.png", "image/png", 1, none, none, 0⟩,
            ⟨"k2", "/images/k2", "special-unique-file.png", "image/png", 2, none, none, 1⟩,
            ⟨"k3", "/images/k3", "dog.png", "image/png", 3, none, none, 2⟩],
          [], 3⟩ (some "special-unique") none ↔
      (⟨"k2", "/images/k2", "special-unique-file.png", "image/png", 2, none, none, 1⟩ :
          MediaAsset) ∈
        (⟨[], [⟨"k1", "/images/k1", "cat.png", "image/png", 1, none, none, 0⟩,
            ⟨"k2", "/images/k2", "special-unique-file.png", "image/png", 2, none, none, 1⟩,
            ⟨"k3", "/images/k3", "dog.png", "image/png", 3, none, none, 2⟩],
          [], 3⟩ : EngineState).catalog ∧
      matchSearch (some "special-unique")
        (⟨"k2", "/images/k2", "special-unique-file.png", "image/png", 2, none, none, 1⟩ :
          MediaAsset).fileName = true) ∧
    List.Perm (queryRows ⟨[], [⟨"k1", "/images/k1", "cat.png", "image/png", 1, none, none, 0⟩,
            ⟨"k2", "/images/k2", "special-unique-file.png", "image/png", 2, none, none, 1⟩,
            ⟨"k3", "/images/k3", "dog.png", "image/png", 3, none, none, 2⟩],
          [], 3⟩ (some "special-unique") none)
      ((⟨[], [⟨"k1", "/images/k1", "cat.png", "image/png", 1, none, none, 0⟩,
            ⟨"k2", "/images/k2", "special-unique-file.png", "image/png", 2, none, none, 1⟩,
            ⟨"k3", "/images/k3", "dog.png", "image/png", 3, none, none, 2⟩],
          [], 3⟩ : EngineState).catalog.filter
        (fun b => matchSearch (some "special-unique") b.fileName)) ∧
    (∀ (u : MediaAsset) (pre post : List MediaAsset),
      (⟨[], [⟨"k1", "/images/k1", "cat.png", "image/png", 1, none, none, 0⟩,
            ⟨"k2", "/images/k2", "special-unique-file.png", "image/png", 2, none, none, 1⟩,
            ⟨"k3", "/images/k3", "dog.png", "image/png", 3, none, none, 2⟩],
          [], 3⟩ : EngineState).catalog = pre ++ u :: post →
      matchSearch (some "special-unique") u.fileName = true →
      (∀ b ∈ pre ++ post, matchSearch (some "special-unique") b.fileName = false) →
      queryRows ⟨[], [⟨"k1", "/images/k1", "cat.png", "image/png", 1, none, none, 0⟩,
            ⟨"k2", "/images/k2", "special-unique-file.png", "image/png", 2, none, none, 1⟩,
            ⟨"k3", "/images/k3", "dog.png", "image/png", 3, none, none, 2⟩],
          [], 3⟩ (some "special-unique") none = [u])) ∧
    queryRows ⟨[], [⟨"k1", "/images/k1", "cat.png", "image/png", 1, none, none, 0⟩,
            ⟨"k2", "/images/k2", "special-unique-file.png", "image/png", 2, none, none, 1⟩,
            ⟨"k3", "/images/k3", "dog.png", "image/png", 3, none, none, 2⟩],
          [], 3⟩ (some "special-unique") none =
      [⟨"k2", "/images/k2", "special-unique-file.png", "image/png", 2, none, none, 1⟩] :=
  ⟨search_exact_match ⟨[], [⟨"k1", "/images/k1", "cat.png", "image/png", 1, none, none, 0⟩,
            ⟨"k2", "/images/k2", "special-unique-file.png", "image/png", 2, none, none, 1⟩,
            ⟨"k3", "/images/k3", "dog.png", "image/png", 3, none, none, 2⟩],
          [], 3⟩ "special-unique"
     ⟨"k2", "/images/k2", "special-unique-file.png", "image/png", 2, none, none, 1⟩,
   (search_exact_match ⟨[], [⟨"k1", "/images/k1", "cat.png", "image/png", 1, none, none, 0⟩,
            ⟨"k2", "/images/k2", "special-unique-file.png", "image/png", 2, none, none, 1⟩,
            ⟨"k3", "/images/k3", "dog.png", "image/png", 3, none, none, 2⟩],
          [], 3⟩ "special-unique"
     ⟨"k2", "/images/k2", "special-unique-file.png", "image/png", 2, none, none, 1⟩).2.2
     ⟨"k2", "/images/k2", "special-unique-file.png", "image/png", 2, none, none, 1⟩
     [⟨"k1", "/images/k1", "cat.png", "image/png", 1, none, none, 0⟩]
     [⟨"k3", "/images/k3", "dog.png", "image/png", 3, none, none, 2⟩]
     rfl (by decide) (by decide)⟩

/-! ## Pagination lemmas -/

theorem effLimit_pos (lim : Option Nat) : 0 < effLimit lim := by
  cases lim with
  | none => decide
  | some n => simp [effLimit]

theorem okey_eq_key {a b : MediaAsset} (h : okey a = okey b) : a.key = b.key := by
  have h2 : toLex (a.createdAt, a.key) = toLex (b.createdAt, b.key) := h
  have h3 : (a.createdAt, a.key) = (b.createdAt, b.key) := toLex.injective h2
  exact congrArg Prod.snd h3

theorem sorted_le_queryRows (s : EngineState) (q : Option String) (c : Option Cursor) :
    (queryRows s q c).Pairwise keyLE :=
  List.Pairwise.filter _ (List.sorted_insertionSort keyLE s.catalog)

theorem pairwise_lt_queryRows (s : EngineState) (q : Option String) (c : Option Cursor)
    (hk : (s.catalog.map MediaAsset.key).Nodup) :
    (queryRows s q c).Pairwise mediaLt := by
  have hle : (queryRows s q c).Pairwise keyLE := sorted_le_queryRows s q c
  have hperm : List.Perm (List.insertionSort keyLE s.catalog) s.catalog :=
    List.perm_insertionSort _ _
  have hkcat : s.catalog.Pairwise (fun a b => a.key ≠ b.key) := by
    have h0 : (s.catalog.map MediaAsset.key).Pairwise (fun x y => x ≠ y) := hk
    exact List.pairwise_map.mp h0
  have hksort : (List.insertionSort keyLE s.catalog).Pairwise (fun a b => a.key ≠ b.key) := by
    refine (hperm.pairwise_iff ?_).mpr hkcat
    intro x y h e
    exact h e.symm
  have hne : (queryRows s q c).Pairwise (fun a b => a.key ≠ b.key) :=
    List.Pairwise.filter _ hksort
  refine (hle.and hne).imp ?_
  rintro a b ⟨h1, h2⟩
  exact lt_of_le_of_ne h1 (fun he => h2 (okey_eq_key he))

theorem queryRows_length_le (s : EngineState) (q : Option String) (c : Option Cursor) :
    (queryRows s q c).length ≤ s.catalog.length := by
  calc (queryRows s q c).length
      ≤ (List.insertionSort keyLE s.catalog).length := List.length_filter_le _ _
    _ = s.catalog.length := (List.perm_insertionSort keyLE s.catalog).length_eq

theorem queryRows_cursor_eq (s : EngineState) (q : Option String) (c : Option Cursor)
    (c2 : Cursor)
    (himp : ∀ a : MediaAsset, decide (c2 < okey a) = true → afterCursor c a = true) :
    queryRows s q (some c2) = (queryRows s q c).filter (fun a => decide (c2 < okey a)) := by
  unfold queryRows
  rw [List.filter_filter]
  apply List.filter_congr
  intro a _
  cases hd : decide (c2 < okey a) with
  | false => simp [afterCursor, hd]
  | true =>
    have h3 := himp a hd
    simp only [afterCursor] at h3
    simp [afterCursor, hd, h3]

theorem filter_lt_getLast_append (l1 l2 : List MediaAsset)
    (h : (l1 ++ l2).Pairwise mediaLt) (hne : l1 ≠ []) :
    (l1 ++ l2).filter (fun a => decide (okey (l1.getLast hne) < okey a)) = l2 := by
  rcases List.pairwise_append.mp h with ⟨hp1, hp2, hcross⟩
  rw [List.filter_append]
  have h1 : l1.filter (fun a => decide (okey (l1.getLast hne) < okey a)) = [] := by
    apply List.filter_eq_nil_iff.mpr
    intro b hb
    simp only [decide_eq_true_eq]
    have hd := List.dropLast_append_getLast hne
    rw [← hd] at hb
    rcases List.mem_append.mp hb with hb1 | hb2
    · have hlt : mediaLt b (l1.getLast hne) := by
        rw [← hd] at hp1
        rcases List.pairwise_append.mp hp1 with ⟨_, _, hc⟩
        exact hc b hb1 _ (List.mem_singleton_self _)
      exact fun h2 => absurd hlt (fun h3 => lt_asymm h2 h3)
    · have hb3 : b = l1.getLast hne := List.mem_singleton.mp hb2
      rw [hb3]
      exact lt_irrefl _
  have h2 : l2.filter (fun a => decide (okey (l1.getLast hne) < okey a)) = l2 := by
    apply List.filter_eq_self.mpr
    intro b hb
    simp only [decide_eq_true_eq]
    exact hcross _ (List.getLast_mem hne) b hb
  rw [h1, h2, List.nil_append]

theorem filter_lt_getLast (L : Nat) (rows : List MediaAsset)
    (h : rows.Pairwise mediaLt) (hne : rows.take L ≠ []) :
    rows.filter (fun a => decide (okey ((rows.take L).getLast hne) < okey a)) =
      rows.drop L := by
  have hsplit : rows.take L ++ rows.drop L = rows := List.take_append_drop L rows
  have hgen := filter_lt_getLast_append (rows.take L) (rows.drop L)
    (by rw [hsplit]; exact h) hne
  rw [hsplit] at hgen
  exact hgen

theorem paginateFrom_eq (s : EngineState) (q : Option String) (lim : Option Nat)
    (hk : (s.catalog.map MediaAsset.key).Nodup) :
    ∀ (fuel : Nat) (c : Option Cursor), (queryRows s q c).length < fuel →
      paginateFrom s q lim c fuel = queryRows s q c := by
  intro fuel
  induction fuel with
  | zero => intro c h; omega
  | succ n ih =>
    intro c h
    by_cases hL : effLimit lim < (queryRows s q c).length
    · have hLpos := effLimit_pos lim
      have htne : (queryRows s q c).take (effLimit lim) ≠ [] := by
        apply List.ne_nil_of_length_pos
        rw [List.length_take]
        omega
      have hgl : ((queryRows s q c).take (effLimit lim)).getLast? =
          some (((queryRows s q c).take (effLimit lim)).getLast htne) :=
        List.getLast?_eq_getLast_of_ne_nil htne
      have hgm2 : (getMediaList s { search := q, cursor := c, limit := lim }).2 =
          some (okey (((queryRows s q c).take (effLimit lim)).getLast htne)) := by
        simp [getMediaList, hL, hgl]
      have hlast_mem : ((queryRows s q c).take (effLimit lim)).getLast htne ∈
          queryRows s q c :=
        List.mem_of_mem_take (List.getLast_mem htne)
      have hafter : afterCursor c (((queryRows s q c).take (effLimit lim)).getLast htne)
          = true := (mem_queryRows.mp hlast_mem).2.2
      have hq2 : queryRows s q
          (some (okey (((queryRows s q c).take (effLimit lim)).getLast htne))) =
          (queryRows s q c).drop (effLimit lim) := by
        rw [queryRows_cursor_eq s q c]
        · exact filter_lt_getLast (effLimit lim) (queryRows s q c)
            (pairwise_lt_queryRows s q c hk) htne
        · intro a ha
          have h2 : okey (((queryRows s q c).take (effLimit lim)).getLast htne) <
              okey a := by simpa using ha
          cases c with
          | none => rfl
          | some c1 =>
            have h1 := hafter
            simp only [afterCursor, decide_eq_true_eq] at h1
            simp only [afterCursor, decide_eq_true_eq]
            exact lt_trans h1 h2
      have hlen2 : (queryRows s q
          (some (okey (((queryRows s q c).take (effLimit lim)).getLast htne)))).length
          < n := by
        rw [hq2, List.length_drop]
        omega
      have hrec := ih _ hlen2
      simp only [paginateFrom, hgm2, Option.elim]
      rw [hrec, hq2]
      exact List.take_append_drop _ _
    · push_neg at hL
      have hgm2 : (getMediaList s { search := q, cursor := c, limit := lim }).2 = none := by
        simp [getMediaList]
        omega
      simp only [paginateFrom, hgm2, Option.elim]
      exact List.take_of_length_le hL

/-! ## C3: cursor pagination is complete, duplicate-free and ordered -/

/-- Claim C3: following `getMediaList` pages from a null cursor until the
returned cursor is null yields exactly the full result set (for no search
filter: exactly the catalog, as a permutation), with no duplicate keys and
no gaps, in strictly monotonic (creation stamp, key) order; and the next
cursor is null exactly when the page already exhausts the result set. -/
theorem pagination_complete (s : EngineState) (q : Option String) (lim : Option Nat)
    (c : Option Cursor) (fuel : Nat)
    (hk : (s.catalog.map MediaAsset.key).Nodup)
    (hfuel : s.catalog.length < fuel) :
    paginateFrom s q lim none fuel = queryRows s q none ∧
    List.Perm (queryRows s none none) s.catalog ∧
    (queryRows s q none).Pairwise mediaLt ∧
    ((queryRows s q none).map MediaAsset.key).Nodup ∧
    ((getMediaList s { search := q, cursor := c, limit := lim }).2 = none ↔
      (getMediaList s { search := q, cursor := c, limit := lim }).1 = queryRows s q c) := by
  refine ⟨?_, ?_, ?_, ?_, ?_⟩
  · exact paginateFrom_eq s q lim hk fuel none
      (lt_of_le_of_lt (queryRows_length_le s q none) hfuel)
  · have hq : queryRows s none none = List.insertionSort keyLE s.catalog := by
      unfold queryRows
      rw [show (fun a : MediaAsset => matchSearch none a.fileName && afterCursor none a)
        = (fun _ => true) from funext (fun a => rfl)]
      exact List.filter_true _
    rw [hq]
    exact List.perm_insertionSort _ _
  · exact pairwise_lt_queryRows s q none hk
  · have hsub : List.Sublist (queryRows s q none) (List.insertionSort keyLE s.catalog) :=
      List.filter_sublist _
    have hmapsub : List.Sublist ((queryRows s q none).map MediaAsset.key)
        ((List.insertionSort keyLE s.catalog).map MediaAsset.key) := hsub.map _
    have hnd : ((List.insertionSort keyLE s.catalog).map MediaAsset.key).Nodup := by
      have hp : List.Perm ((List.insertionSort keyLE s.catalog).map MediaAsset.key)
          (s.catalog.map MediaAsset.key) := (List.perm_insertionSort keyLE s.catalog).map _
      exact hp.nodup_iff.mpr hk
    exact hmapsub.nodup hnd
  · constructor
    · intro h
      by_cases hL : effLimit lim < (queryRows s q c).length
      · exfalso
        have htne : (queryRows s q c).take (effLimit lim) ≠ [] := by
          apply List.ne_nil_of_length_pos
          rw [List.length_take]
          have := effLimit_pos lim
          omega
        have hgl := List.getLast?_eq_getLast_of_ne_nil htne
        simp [getMediaList, hL, hgl] at h
      · push_neg at hL
        have hthis : (getMediaList s { search := q, cursor := c, limit := lim }).1 =
            (queryRows s q c).take (effLimit lim) := rfl
        rw [hthis]
        exact List.take_of_length_le hL
    · intro h
      have h1 : ((queryRows s q c).take (effLimit lim)).length =
          (queryRows s q c).length := congrArg List.length h
      rw [List.length_take] at h1
      have hc2 : ¬ effLimit lim < (queryRows s q c).length := by omega
      simp [getMediaList, hc2]

/-- Claim C3 witness: three assets paginated two at a time. -/
theorem pagination_complete_witness :
    (((⟨[], [⟨"ka", "/images/ka", "a.png", "image/png", 1, none, none, 0⟩,
             ⟨"kb", "/images/kb", "b.png", "image/png", 2, none, none, 1⟩,
             ⟨"kc", "/images/kc", "c.png", "image/png", 3, none, none, 2⟩],
        [], 3⟩ : EngineState).catalog.map MediaAsset.key).Nodup ∧
      (⟨[], [⟨"ka", "/images/ka", "a.png", "image/png", 1, none, none, 0⟩,
             ⟨"kb", "/images/kb", "b.png", "image/png", 2, none, none, 1⟩,
             ⟨"kc", "/images/kc", "c.png", "image/png", 3, none, none, 2⟩],
        [], 3⟩ : EngineState).catalog.length < 4) ∧
    (paginateFrom ⟨[], [⟨"ka", "/images/ka", "a.png", "image/png", 1, none, none, 0⟩,
             ⟨"kb", "/images/kb", "b.png", "image/png", 2, none, none, 1⟩,
             ⟨"kc", "/images/kc", "c.png", "image/png", 3, none, none, 2⟩],
        [], 3⟩ none (some 2) none 4 =
      queryRows ⟨[], [⟨"ka", "/images/ka", "a.png", "image/png", 1, none, none, 0⟩,
             ⟨"kb", "/images/kb", "b.png", "image/png", 2, none, none, 1⟩,
             ⟨"kc", "/images/kc", "c.png", "image/png", 3, none, none, 2⟩],
        [], 3⟩ none none ∧
    List.Perm (queryRows ⟨[], [⟨"ka", "/images/ka", "a.png", "image/png", 1, none, none, 0⟩,
             ⟨"kb", "/images/kb", "b.png", "image/png", 2, none, none, 1⟩,
             ⟨"kc", "/images/kc", "c.png", "image/png", 3, none, none, 2⟩],
        [], 3⟩ none none)
      (⟨[], [⟨"ka", "/images/ka", "a.png", "image/png", 1, none, none, 0⟩,
             ⟨"kb", "/images/kb", "b.png", "image/png", 2, none, none, 1⟩,
             ⟨"kc", "/images/kc", "c.png", "image/png", 3, none, none, 2⟩],
        [], 3⟩ : EngineState).catalog ∧
    (queryRows ⟨[], [⟨"ka", "/images/ka", "a.png", "image/png", 1, none, none, 0⟩,
             ⟨"kb", "/images/kb", "b.png", "image/png", 2, none, none, 1⟩,
             ⟨"kc", "/images/kc", "c.png", "image/png", 3, none, none, 2⟩],
        [], 3⟩ none none).Pairwise mediaLt ∧
    ((queryRows ⟨[], [⟨"ka", "/images/ka", "a.png", "image/png", 1, none, none, 0⟩,
             ⟨"kb", "/images/kb", "b.png", "image/png", 2, none, none, 1⟩,
             ⟨"kc", "/images/kc", "c.png", "image/png", 3, none, none, 2⟩],
        [], 3⟩ none none).map MediaAsset.key).Nodup ∧
    ((getMediaList ⟨[], [⟨"ka", "/images/ka", "a.png", "image/png", 1, none, none, 0⟩,
             ⟨"kb", "/images/kb", "b.png", "image/png", 2, none, none, 1⟩,
             ⟨"kc", "/images/kc", "c.png", "image/png", 3, none, none, 2⟩],
        [], 3⟩ { search := none, cursor := none, limit := some 2 }).2 = none ↔
      (getMediaList ⟨[], [⟨"ka", "/images/ka", "a.png", "image/png", 1, none, none, 0⟩,
             ⟨"kb", "/images/kb", "b.png", "image/png", 2, none, none, 1⟩,
             ⟨"kc", "/images/kc", "c.png", "image/png", 3, none, none, 2⟩],
        [], 3⟩ { search := none, cursor := none, limit := some 2 }).1 =
        queryRows ⟨[], [⟨"ka", "/images/ka", "a.png", "image/png", 1, none, none, 0⟩,
             ⟨"kb", "/images/kb", "b.png", "image/png", 2, none, none, 1⟩,
             ⟨"kc", "/images/kc", "c.png", "image/png", 3, none, none, 2⟩],
        [], 3⟩ none none)) :=
  ⟨⟨by decide, by decide⟩,
   pagination_complete _ none (some 2) none 4 (by decide) (by decide)⟩

/-! ## C4: the stored size is the exact byte length of the content -/

/-- Claim C4: a successful upload returns the persisted asset whose
`sizeInBytes` is the byte length of the content as computed by the engine
(the caller-supplied `declaredSize` is ignored: changing it changes
nothing), and the listing subsequently contains an item with the returned
key carrying that same size (both in the full result set and in the union
of all pages). -/
theorem upload_size_from_bytes (f : FileInput) (s : EngineState) (d : Nat)
    (lim : Option Nat)
    (hc : f.content ≠ [])
    (hk : (s.catalog.map MediaAsset.key).Nodup)
    (hfresh : ∀ a ∈ s.catalog, a.key ≠ genKey s.counter f.name) :
    ∃ a : MediaAsset,
      (upload none none f s).1 = Except.ok a ∧
      a.sizeInBytes = f.content.length ∧
      a.key = genKey s.counter f.name ∧
      (upload none none { f with declaredSize := d } s).1 = Except.ok a ∧
      a ∈ ((upload none none f s).2).catalog ∧
      a ∈ queryRows ((upload none none f s).2) none none ∧
      a ∈ paginateFrom ((upload none none f s).2) none lim none
            (((upload none none f s).2).catalog.length + 1) := by
  have hni : f.content.isEmpty = false := List.isEmpty_eq_false.mpr hc
  refine ⟨⟨genKey s.counter f.name, keyUrl (genKey s.counter f.name), f.name, f.mimeType,
    f.content.length, none, none, s.counter⟩, ?_, rfl, rfl, ?_, ?_, ?_, ?_⟩
  · simp [upload, hni]
  · simp [upload, hni]
  · simp [upload, hni]
  · apply mem_queryRows.mpr
    exact ⟨by simp [upload, hni], rfl, rfl⟩
  · have hk2 : ((((upload none none f s).2).catalog).map MediaAsset.key).Nodup := by
      have hcat : ((upload none none f s).2).catalog =
          (⟨genKey s.counter f.name, keyUrl (genKey s.counter f.name), f.name, f.mimeType,
            f.content.length, none, none, s.counter⟩ : MediaAsset) :: s.catalog := by
        simp [upload, hni]
      rw [hcat]
      rw [List.map_cons, List.nodup_cons]
      refine ⟨?_, hk⟩
      intro hmem
      rcases List.mem_map.mp hmem with ⟨b, hb, hbe⟩
      exact hfresh b hb hbe
    rw [paginateFrom_eq _ _ _ hk2 _ none
      (Nat.lt_succ_of_le (queryRows_length_le _ _ _))]
    apply mem_queryRows.mpr
    exact ⟨by simp [upload, hni], rfl, rfl⟩

/-- Claim C4 witness: a 4-byte file uploaded into a one-row state. -/
theorem upload_size_from_bytes_witness :
    (((⟨"sized.jpg", "image/jpeg", [9, 9, 9, 9], 77⟩ : FileInput).content ≠ []) ∧
      ((⟨["kz"], [⟨"kz", "/images/kz", "z.png", "image/png", 1, none, none, 0⟩],
        [], 1⟩ : EngineState).catalog.map MediaAsset.key).Nodup ∧
      (∀ a ∈ (⟨["kz"], [⟨"kz", "/images/kz", "z.png", "image/png", 1, none, none, 0⟩],
        [], 1⟩ : EngineState).catalog, a.key ≠ genKey 1 "sized.jpg")) ∧
    (∃ a : MediaAsset,
      (upload none none ⟨"sized.jpg", "image/jpeg", [9, 9, 9, 9], 77⟩
        ⟨["kz"], [⟨"kz", "/images/kz", "z.png", "image/png", 1, none, none, 0⟩],
        [], 1⟩).1 = Except.ok a ∧
      a.sizeInBytes = (⟨"sized.jpg", "image/jpeg", [9, 9, 9, 9], 77⟩ : FileInput).content.length ∧
      a.key = genKey 1 "sized.jpg" ∧
      (upload none none { (⟨"sized.jpg", "image/jpeg", [9, 9, 9, 9], 77⟩ : FileInput) with
          declaredSize := 5 }
        ⟨["kz"], [⟨"kz", "/images/kz", "z.png", "image/png", 1, none, none, 0⟩],
        [], 1⟩).1 = Except.ok a ∧
      a ∈ ((upload none none ⟨"sized.jpg", "image/jpeg", [9, 9, 9, 9], 77⟩
        ⟨["kz"], [⟨"kz", "/images/kz", "z.png", "image/png", 1, none, none, 0⟩],
        [], 1⟩).2).catalog ∧
      a ∈ queryRows ((upload none none ⟨"sized.jpg", "image/jpeg", [9, 9, 9, 9], 77⟩
        ⟨["kz"], [⟨"kz", "/images/kz", "z.png", "image/png", 1, none, none, 0⟩],
        [], 1⟩).2) none none ∧
      a ∈ paginateFrom ((upload none none ⟨"sized.jpg", "image/jpeg", [9, 9, 9, 9], 77⟩
        ⟨["kz"], [⟨"kz", "/images/kz", "z.png", "image/png", 1, none, none, 0⟩],
        [], 1⟩).2) none (some 1) none
            (((upload none none ⟨"sized.jpg", "image/jpeg", [9, 9, 9, 9], 77⟩
        ⟨["kz"], [⟨"kz", "/images/kz", "z.png", "image/png", 1, none, none, 0⟩],
        [], 1⟩).2).catalog.length + 1)) :=
  ⟨⟨by decide, by decide, by decide⟩,
   upload_size_from_bytes ⟨"sized.jpg", "image/jpeg", [9, 9, 9, 9], 77⟩
     ⟨["kz"], [⟨"kz", "/images/kz", "z.png", "image/png", 1, none, none, 0⟩], [], 1⟩
     5 (some 1) (by decide) (by decide) (by decide)⟩

/-! ## Reference Scanner lemmas -/

theorem leadMatch_append (xs ys : List Char) : leadMatch xs (xs ++ ys) = true := by
  induction xs with
  | nil => rfl
  | cons a as ih => simp [leadMatch, ih]

theorem keyFromSrc_keyUrl (k : String) : keyFromSrc (keyUrl k) = some k := by
  unfold keyFromSrc keyUrl
  have h1 : ("/images/" ++ "").data = "/images/".data := by simp
  have h2 : ("/images/" ++ k).data = "/images/".data ++ k.data := by simp
  rw [h1, h2, leadMatch_append]
  have h3 : ("/images/".data).length = 8 := by decide
  simp only [if_true]
  rw [← h3, List.drop_left]

theorem mem_scanList_iff (l : List DocNode) (k : String) :
    k ∈ scanList l ↔ ∃ n ∈ l, k ∈ scanNode n := by
  induction l with
  | nil => simp [scanList]
  | cons n ns ih => simp [scanList, List.mem_append, ih]

theorem scanNode_of_hasEmbed {d : DocNode} {k : String} (h : HasEmbed d k) :
    k ∈ scanNode d := by
  induction h with
  | self t src c u k2 ht hsrc hkey =>
    simp only [scanNode]
    apply List.mem_append.mpr
    left
    rw [if_pos ht, hsrc]
    simp [hkey]
  | child t src c n k2 hn hemb ih =>
    simp only [scanNode]
    apply List.mem_append.mpr
    right
    exact (mem_scanList_iff c k2).mpr ⟨n, hn, ih⟩

theorem hasEmbed_of_scanNode_aux :
    ∀ (m : Nat) (d : DocNode) (k : String), sizeOf d ≤ m → k ∈ scanNode d → HasEmbed d k := by
  intro m
  induction m with
  | zero =>
    intro d k hd h
    obtain ⟨t, src, c⟩ := d
    simp only [DocNode.mk.sizeOf_spec] at hd
    omega
  | succ m ih =>
    intro d k hd h
    obtain ⟨t, src, c⟩ := d
    simp only [scanNode] at h
    rcases List.mem_append.mp h with h1 | h2
    · by_cases ht : t = some "image"
      · rw [if_pos ht] at h1
        cases src with
        | none => simp at h1
        | some u =>
          have hk : keyFromSrc u = some k := by
            cases hku : keyFromSrc u with
            | none => simp [hku] at h1
            | some k2 =>
              simp [hku] at h1
              simp [h1]
          exact HasEmbed.self t (some u) c u k ht rfl hk
      · rw [if_neg ht] at h1
        simp at h1
    · rcases (mem_scanList_iff c k).mp h2 with ⟨n, hn, hkn⟩
      refine HasEmbed.child t src c n k hn (ih n k ?_ hkn)
      have h4 := List.sizeOf_lt_of_mem hn
      simp only [DocNode.mk.sizeOf_spec] at hd
      omega

theorem hasEmbed_of_scanNode (d : DocNode) (k : String) (h : k ∈ scanNode d) :
    HasEmbed d k :=
  hasEmbed_of_scanNode_aux (sizeOf d) d k le_rfl h

theorem mem_scanNode_iff (d : DocNode) (k : String) : k ∈ scanNode d ↔ HasEmbed d k :=
  ⟨hasEmbed_of_scanNode d k, fun h => scanNode_of_hasEmbed h⟩

theorem mem_extractMediaKeys (d : DocNode) (k : String) :
    k ∈ extractMediaKeys d ↔ HasEmbed d k := by
  rw [extractMediaKeys, List.mem_dedup]
  exact mem_scanNode_iff d k

theorem isMediaInUse_iff (posts : List (Nat × DocNode)) (k : String) :
    isMediaInUse (buildIndex posts) k = true ↔ ∃ p ∈ posts, HasEmbed p.2 k := by
  rw [isMediaInUse, List.any_eq_true]
  constructor
  · rintro ⟨q, hq, hkq⟩
    rcases List.mem_map.mp hq with ⟨p, hp, hpq⟩
    refine ⟨p, hp, ?_⟩
    rw [← hpq] at hkq
    exact (mem_extractMediaKeys p.2 k).mp (by simpa using hkq)
  · rintro ⟨p, hp, hemb⟩
    refine ⟨(p.1, extractMediaKeys p.2), List.mem_map.mpr ⟨p, hp, rfl⟩, ?_⟩
    simpa using (mem_extractMediaKeys p.2 k).mpr hemb

/-! ## C6: the scanner is total, permissive and set-valued -/

/-- Claim C6: the Reference Scanner is a total function of the document
tree (it never raises, malformed nodes included): its output contains a key
exactly when some well-formed image embed of that key occurs anywhere in
the tree — so malformed or partially-typed nodes contribute nothing while
every valid embed of a mixed tree is still collected — and the output is a
set: no key appears twice. -/
theorem scanner_permissive_set (d : DocNode) (k : String) :
    (k ∈ extractMediaKeys d ↔ HasEmbed d k) ∧ (extractMediaKeys d).Nodup :=
  ⟨mem_extractMediaKeys d k, List.nodup_dedup _⟩

/-! ## C5: reference tracking queries -/

/-- Claim C5: over the index derived from the posts' current bodies:
`isMediaInUse` is true exactly when some post embeds the key;
`getLinkedPosts` returns exactly the referencing posts, each reported once;
an unreferenced key yields false / an empty post list; and the batched
`getLinkedMediaKeys` returns exactly the candidate keys that appear in at
least one post's reference set. -/
theorem reference_tracking (posts : List (Nat × DocNode)) (k : String)
    (keys : List String)
    (hpid : (posts.map Prod.fst).Nodup) :
    (isMediaInUse (buildIndex posts) k = true ↔ ∃ p ∈ posts, HasEmbed p.2 k) ∧
    (∀ pid : Nat, pid ∈ getLinkedPosts (buildIndex posts) k ↔
      ∃ p ∈ posts, p.1 = pid ∧ HasEmbed p.2 k) ∧
    (getLinkedPosts (buildIndex posts) k).Nodup ∧
    ((∀ p ∈ posts, ¬ HasEmbed p.2 k) → isMediaInUse (buildIndex posts) k = false ∧
      getLinkedPosts (buildIndex posts) k = []) ∧
    (∀ k2 : String, k2 ∈ getLinkedMediaKeys (buildIndex posts) keys ↔
      k2 ∈ keys ∧ ∃ p ∈ posts, HasEmbed p.2 k2) := by
  have hlinked : ∀ pid : Nat, pid ∈ getLinkedPosts (buildIndex posts) k ↔
      ∃ p ∈ posts, p.1 = pid ∧ HasEmbed p.2 k := by
    intro pid
    rw [getLinkedPosts]
    constructor
    · intro h
      rcases List.mem_map.mp h with ⟨q, hq, hq1⟩
      rcases List.mem_filter.mp hq with ⟨hq2, hq3⟩
      rcases List.mem_map.mp hq2 with ⟨p, hp, hpq⟩
      refine ⟨p, hp, ?_, ?_⟩
      · rw [← hq1, ← hpq]
      · rw [← hpq] at hq3
        exact (mem_extractMediaKeys p.2 k).mp (by simpa using hq3)
    · rintro ⟨p, hp, hpid2, hemb⟩
      apply List.mem_map.mpr
      refine ⟨(p.1, extractMediaKeys p.2), ?_, hpid2⟩
      apply List.mem_filter.mpr
      refine ⟨List.mem_map.mpr ⟨p, hp, rfl⟩, ?_⟩
      simpa using (mem_extractMediaKeys p.2 k).mpr hemb
  refine ⟨isMediaInUse_iff posts k, hlinked, ?_, ?_, ?_⟩
  · have h1 : List.Sublist (getLinkedPosts (buildIndex posts) k)
        ((buildIndex posts).map Prod.fst) := (List.filter_sublist _).map _
    have h2 : (buildIndex posts).map Prod.fst = posts.map Prod.fst := by
      rw [buildIndex, List.map_map]
      rfl
    exact h1.nodup (h2 ▸ hpid)
  · intro hnone
    constructor
    · rw [Bool.eq_false_iff]
      intro h
      rcases (isMediaInUse_iff posts k).mp h with ⟨p, hp, hemb⟩
      exact hnone p hp hemb
    · apply List.eq_nil_iff_forall_not_mem.mpr
      intro pid hpid2
      rcases (hlinked pid).mp hpid2 with ⟨p, hp, _, hemb⟩
      exact hnone p hp hemb
  · intro k2
    rw [getLinkedMediaKeys, List.mem_filter]
    constructor
    · rintro ⟨h1, h2⟩
      exact ⟨h1, (isMediaInUse_iff posts k2).mp h2⟩
    · rintro ⟨h1, h2⟩
      exact ⟨h1, (isMediaInUse_iff posts k2).mpr h2⟩

/-- Claim C5 witness: one post whose body embeds keys k1 and k2 (and
carries a malformed child node); batch check over three candidate keys. -/
theorem reference_tracking_witness :
    ([(1, DocNode.mk (some "doc") none
        [DocNode.mk (some "image") (some "/images/k1") [],
         DocNode.mk none (some "/images/zz") [],
         DocNode.mk (some "image") (some "/images/k2") []])].map Prod.fst).Nodup ∧
    ((isMediaInUse (buildIndex [(1, DocNode.mk (some "doc") none
        [DocNode.mk (some "image") (some "/images/k1") [],
         DocNode.mk none (some "/images/zz") [],
         DocNode.mk (some "image") (some "/images/k2") []])]) "k1" = true ↔
      ∃ p ∈ [(1, DocNode.mk (some "doc") none
        [DocNode.mk (some "image") (some "/images/k1") [],
         DocNode.mk none (some "/images/zz") [],
         DocNode.mk (some "image") (some "/images/k2") []])], HasEmbed p.2 "k1") ∧
    (∀ pid : Nat, pid ∈ getLinkedPosts (buildIndex [(1, DocNode.mk (some "doc") none
        [DocNode.mk (some "image") (some "/images/k1") [],
         DocNode.mk none (some "/images/zz") [],
         DocNode.mk (some "image") (some "/images/k2") []])]) "k1" ↔
      ∃ p ∈ [(1, DocNode.mk (some "doc") none
        [DocNode.mk (some "image") (some "/images/k1") [],
         DocNode.mk none (some "/images/zz") [],
         DocNode.mk (some "image") (some "/images/k2") []])], p.1 = pid ∧
          HasEmbed p.2 "k1") ∧
    (getLinkedPosts (buildIndex [(1, DocNode.mk (some "doc") none
        [DocNode.mk (some "image") (some "/images/k1") [],
         DocNode.mk none (some "/images/zz") [],
         DocNode.mk (some "image") (some "/images/k2") []])]) "k1").Nodup ∧
    ((∀ p ∈ [(1, DocNode.mk (some "doc") none
        [DocNode.mk (some "image") (some "/images/k1") [],
         DocNode.mk none (some "/images/zz") [],
         DocNode.mk (some "image") (some "/images/k2") []])], ¬ HasEmbed p.2 "k1") →
      isMediaInUse (buildIndex [(1, DocNode.mk (some "doc") none
        [DocNode.mk (some "image") (some "/images/k1") [],
         DocNode.mk none (some "/images/zz") [],
         DocNode.mk (some "image") (some "/images/k2") []])]) "k1" = false ∧
      getLinkedPosts (buildIndex [(1, DocNode.mk (some "doc") none
        [DocNode.mk (some "image") (some "/images/k1") [],
         DocNode.mk none (some "/images/zz") [],
         DocNode.mk (some "image") (some "/images/k2") []])]) "k1" = []) ∧
    (∀ k2 : String, k2 ∈ getLinkedMediaKeys (buildIndex [(1, DocNode.mk (some "doc") none
        [DocNode.mk (some "image") (some "/images/k1") [],
         DocNode.mk none (some "/images/zz") [],
         DocNode.mk (some "image") (some "/images/k2") []])]) ["k1", "k2", "k3"] ↔
      k2 ∈ ["k1", "k2", "k3"] ∧ ∃ p ∈ [(1, DocNode.mk (some "doc") none
        [DocNode.mk (some "image") (some "/images/k1") [],
         DocNode.mk none (some "/images/zz") [],
         DocNode.mk (some "image") (some "/images/k2") []])], HasEmbed p.2 k2)) :=
  ⟨by decide,
   reference_tracking [(1, DocNode.mk (some "doc") none
        [DocNode.mk (some "image") (some "/images/k1") [],
         DocNode.mk none (some "/images/zz") [],
         DocNode.mk (some "image") (some "/images/k2") []])] "k1" ["k1", "k2", "k3"]
     (by decide)⟩

/-! ## Editor image-upload lemmas -/

theorem specUpdateFirst_of_no_match (u : String) (r : ImageUploadResult)
    (l : List (String × ImgAttrs)) (h : hasMatchFlat u l = false) :
    specUpdateFirst u r l = l := by
  induction l with
  | nil => rfl
  | cons p rest ih =>
    obtain ⟨t, a⟩ := p
    rw [hasMatchFlat, List.any_cons, Bool.or_eq_false_iff] at h
    simp [specUpdateFirst, h.1, ih h.2]

theorem hasMatchFlat_append (u : String) (xs ys : List (String × ImgAttrs)) :
    hasMatchFlat u (xs ++ ys) = (hasMatchFlat u xs || hasMatchFlat u ys) :=
  List.any_append

theorem hasMatchFlat_cons (u : String) (t : String) (a : ImgAttrs)
    (rest : List (String × ImgAttrs)) :
    hasMatchFlat u ((t, a) :: rest) = (isImgMatch u t a || hasMatchFlat u rest) := rfl

theorem specUpdateFirst_append (u : String) (r : ImageUploadResult)
    (xs ys : List (String × ImgAttrs)) :
    specUpdateFirst u r (xs ++ ys) =
      if hasMatchFlat u xs then specUpdateFirst u r xs ++ ys
      else xs ++ specUpdateFirst u r ys := by
  induction xs with
  | nil => simp [specUpdateFirst, hasMatchFlat]
  | cons p rest ih =>
    obtain ⟨t, a⟩ := p
    by_cases hm : isImgMatch u t a = true
    · simp [specUpdateFirst, hasMatchFlat_cons, hm]
    · have hm2 : isImgMatch u t a = false := by simpa using hm
      cases hq : hasMatchFlat u rest with
      | true => simp [specUpdateFirst, hasMatchFlat_cons, hm2, hq, ih]
      | false => simp [specUpdateFirst, hasMatchFlat_cons, hm2, hq, ih]

theorem replaceFirstList_spec_aux (u : String) (r : ImageUploadResult) :
    ∀ (m : Nat) (l : List PMNode), sizeOf l ≤ m →
      shapeL (replaceFirstList u r l).1 = shapeL l ∧
      flatL (replaceFirstList u r l).1 = specUpdateFirst u r (flatL l) ∧
      (replaceFirstList u r l).2 = hasMatchFlat u (flatL l) := by
  intro m
  induction m with
  | zero =>
    intro l hl
    cases l with
    | nil => simp [replaceFirstList, shapeL, flatL, specUpdateFirst, hasMatchFlat]
    | cons hd ns =>
      rw [List.cons.sizeOf_spec] at hl
      omega
  | succ m ih =>
    intro l hl
    cases l with
    | nil => simp [replaceFirstList, shapeL, flatL, specUpdateFirst, hasMatchFlat]
    | cons hd ns =>
      obtain ⟨t, a, c⟩ := hd
      rw [List.cons.sizeOf_spec, PMNode.mk.sizeOf_spec] at hl
      have ihc := ih c (by omega)
      have ihns := ih ns (by omega)
      by_cases hm : isImgMatch u t a = true
      · refine ⟨?_, ?_, ?_⟩
        · simp [replaceFirstList, hm, shapeL]
        · simp [replaceFirstList, hm, flatL, specUpdateFirst]
        · simp [replaceFirstList, hm, flatL, hasMatchFlat]
      · have hm2 : isImgMatch u t a = false := by simpa using hm
        by_cases hf : (replaceFirstList u r c).2 = true
        · have hmc : hasMatchFlat u (flatL c) = true := by rw [← ihc.2.2]; exact hf
          refine ⟨?_, ?_, ?_⟩
          · simp [replaceFirstList, hm2, hf, shapeL, ihc.1]
          · simp [replaceFirstList, hm2, hf, flatL, specUpdateFirst,
              specUpdateFirst_append, hmc, ihc.2.1]
          · simp [replaceFirstList, hm2, hf, flatL, hasMatchFlat_cons,
              hasMatchFlat_append, hmc]
        · have hf2 : (replaceFirstList u r c).2 = false := by simpa using hf
          have hmc : hasMatchFlat u (flatL c) = false := by rw [← ihc.2.2]; exact hf2
          refine ⟨?_, ?_, ?_⟩
          · simp [replaceFirstList, hm2, hf2, shapeL, ihns.1]
          · simp [replaceFirstList, hm2, hf2, flatL, specUpdateFirst,
              specUpdateFirst_append, hmc, ihns.2.1]
          · simp [replaceFirstList, hm2, hf2, flatL, hasMatchFlat_cons,
              hasMatchFlat_append, hmc, ihns.2.2]

theorem replaceFirstList_spec (u : String) (r : ImageUploadResult) (l : List PMNode) :
    shapeL (replaceFirstList u r l).1 = shapeL l ∧
    flatL (replaceFirstList u r l).1 = specUpdateFirst u r (flatL l) ∧
    (replaceFirstList u r l).2 = hasMatchFlat u (flatL l) :=
  replaceFirstList_spec_aux u r (sizeOf l) l le_rfl

theorem noSrcL_append (u : String) (xs ys : List PMNode) :
    noSrcL u (xs ++ ys) = (noSrcL u xs && noSrcL u ys) := by
  induction xs with
  | nil => simp [noSrcL]
  | cons hd rest ih =>
    obtain ⟨t, a, c⟩ := hd
    simp [noSrcL, ih, Bool.and_assoc]

theorem removeFirstList_no_match (u : String) :
    ∀ (m : Nat) (l : List PMNode), sizeOf l ≤ m → noSrcL u l = true →
      removeFirstList u l = (l, false) := by
  intro m
  induction m with
  | zero =>
    intro l hl _
    cases l with
    | nil => simp [removeFirstList]
    | cons hd ns =>
      rw [List.cons.sizeOf_spec] at hl
      omega
  | succ m ih =>
    intro l hl hsrc
    cases l with
    | nil => simp [removeFirstList]
    | cons hd ns =>
      obtain ⟨t, a, c⟩ := hd
      rw [List.cons.sizeOf_spec, PMNode.mk.sizeOf_spec] at hl
      rw [noSrcL, Bool.and_eq_true, Bool.and_eq_true] at hsrc
      rcases hsrc with ⟨⟨h1, h2⟩, h3⟩
      have hm : isImgMatch u t a = false := by
        rw [isImgMatch]
        have h4 : a.src ≠ some u := by simpa using h1
        simp [h4]
      have hc := ih c (by omega) h2
      have hns := ih ns (by omega) h3
      simp [removeFirstList, hm, hc, hns]

theorem removeFirstList_append_left (u : String) (xs ys : List PMNode)
    (hx : noSrcL u xs = true) :
    removeFirstList u (xs ++ ys) =
      (xs ++ (removeFirstList u ys).1, (removeFirstList u ys).2) := by
  induction xs with
  | nil => simp
  | cons hd rest ih =>
    obtain ⟨t, a, c⟩ := hd
    rw [noSrcL, Bool.and_eq_true, Bool.and_eq_true] at hx
    rcases hx with ⟨⟨h1, h2⟩, h3⟩
    have hm : isImgMatch u t a = false := by
      rw [isImgMatch]
      have h4 : a.src ≠ some u := by simpa using h1
      simp [h4]
    have hc := removeFirstList_no_match u (sizeOf c) c le_rfl h2
    simp [removeFirstList, hm, hc, ih h3]

theorem removeFirst_insert_roundtrip (u fileName : String) (i : Nat)
    (doc : List PMNode) (h : noSrcL u doc = true) :
    removeFirstList u (insertNode i (placeholderNode u fileName) doc) = (doc, true) := by
  rw [insertNode]
  have hsplit : doc.take i ++ doc.drop i = doc := List.take_append_drop i doc
  have htd : noSrcL u (doc.take i ++ doc.drop i) = true := by rw [hsplit]; exact h
  rw [noSrcL_append, Bool.and_eq_true] at htd
  rw [removeFirstList_append_left u (doc.take i) _ htd.1]
  have hhead : removeFirstList u (placeholderNode u fileName :: doc.drop i) =
      (doc.drop i, true) := by
    simp [removeFirstList, placeholderNode, isImgMatch]
  rw [hhead, hsplit]

/-! ## C9: rejected uploads are caught and the placeholder cleaned up -/

/-- Claim C9 (amended): when `onUpload` rejects, the rejection is caught by
the command's `.catch` and never reaches the command's caller (the command
already returned `true`); the optional `onError` handler is invoked with
the error; and — provided the editor view has not been destroyed by the
time the deferred cleanup runs — the optimistically inserted placeholder
image node (the one whose `src` is the fresh blob URL) is removed, which
restores the pre-insert document, and the blob URL is revoked.  (On a
destroyed view the source returns from `removePlaceholder` before removing
the node or revoking the URL — see the counterexample.) -/
theorem uploadImage_reject_cleanup (doc : List PMNode) (pos : Nat)
    (fileName u e : String) (hasOnError : Bool)
    (hfresh : noSrcL u doc = true) :
    (uploadImageCommand doc pos fileName u true (UploadOutcome.rejected e)
        false hasOnError).uncaught = none ∧
    (uploadImageCommand doc pos fileName u true (UploadOutcome.rejected e)
        false hasOnError).returned = true ∧
    (uploadImageCommand doc pos fileName u true (UploadOutcome.rejected e)
        false hasOnError).onErrorCalls = (if hasOnError then [e] else []) ∧
    (uploadImageCommand doc pos fileName u true (UploadOutcome.rejected e)
        false hasOnError).revoked = [u] ∧
    (uploadImageCommand doc pos fileName u true (UploadOutcome.rejected e)
        false hasOnError).doc = doc := by
  refine ⟨rfl, rfl, rfl, rfl, ?_⟩
  show (removeFirstList u (insertNode pos (placeholderNode u fileName) doc)).1 = doc
  rw [removeFirst_insert_roundtrip u fileName pos doc hfresh]

/-- Claim C9 counterexample to the claim as stated: when the editor view is
already destroyed, the rejection is still caught and `onError` invoked, but
the placeholder image node stays in the document and the blob URL is never
revoked. -/
theorem uploadImage_reject_cleanup_counterexample :
    (uploadImageCommand [] 0 "f.png" "blob:u1" true (UploadOutcome.rejected "boom")
        true true).onErrorCalls = ["boom"] ∧
    (uploadImageCommand [] 0 "f.png" "blob:u1" true (UploadOutcome.rejected "boom")
        true true).doc = [placeholderNode "blob:u1" "f.png"] ∧
    (uploadImageCommand [] 0 "f.png" "blob:u1" true (UploadOutcome.rejected "boom")
        true true).revoked = [] ∧
    "blob:u1" ∉ (uploadImageCommand [] 0 "f.png" "blob:u1" true
        (UploadOutcome.rejected "boom") true true).revoked := by
  refine ⟨rfl, rfl, rfl, ?_⟩
  show "blob:u1" ∉ ([] : List String)
  simp

/-- Claim C9 witness: a rejected upload against a one-paragraph document. -/
theorem uploadImage_reject_cleanup_witness :
    noSrcL "blob:u1" [PMNode.mk "paragraph" ⟨none, none, none, none⟩ []] = true ∧
    ((uploadImageCommand [PMNode.mk "paragraph" ⟨none, none, none, none⟩ []] 0
        "f.png" "blob:u1" true (UploadOutcome.rejected "boom") false true).uncaught = none ∧
    (uploadImageCommand [PMNode.mk "paragraph" ⟨none, none, none, none⟩ []] 0
        "f.png" "blob:u1" true (UploadOutcome.rejected "boom") false true).returned = true ∧
    (uploadImageCommand [PMNode.mk "paragraph" ⟨none, none, none, none⟩ []] 0
        "f.png" "blob:u1" true (UploadOutcome.rejected "boom") false true).onErrorCalls =
      (if true then ["boom"] else []) ∧
    (uploadImageCommand [PMNode.mk "paragraph" ⟨none, none, none, none⟩ []] 0
        "f.png" "blob:u1" true (UploadOutcome.rejected "boom") false true).revoked =
      ["blob:u1"] ∧
    (uploadImageCommand [PMNode.mk "paragraph" ⟨none, none, none, none⟩ []] 0
        "f.png" "blob:u1" true (UploadOutcome.rejected "boom") false true).doc =
      [PMNode.mk "paragraph" ⟨none, none, none, none⟩ []]) :=
  ⟨by simp [noSrcL],
   uploadImage_reject_cleanup [PMNode.mk "paragraph" ⟨none, none, none, none⟩ []] 0
     "f.png" "blob:u1" "boom" true (by simp [noSrcL])⟩

/-- When the traversal finds no matching node, the document is returned
unchanged (the dispatched transaction is empty). -/
theorem replaceFirstList_not_found (u : String) (r : ImageUploadResult) :
    ∀ (m : Nat) (l : List PMNode), sizeOf l ≤ m →
      (replaceFirstList u r l).2 = false → (replaceFirstList u r l).1 = l := by
  intro m
  induction m with
  | zero =>
    intro l hl _
    cases l with
    | nil => simp [replaceFirstList]
    | cons hd ns =>
      rw [List.cons.sizeOf_spec] at hl
      omega
  | succ m ih =>
    intro l hl hflag
    cases l with
    | nil => simp [replaceFirstList]
    | cons hd ns =>
      obtain ⟨t, a, c⟩ := hd
      rw [List.cons.sizeOf_spec, PMNode.mk.sizeOf_spec] at hl
      by_cases hm : isImgMatch u t a = true
      · rw [replaceFirstList] at hflag
        simp [hm] at hflag
      · have hm2 : isImgMatch u t a = false := by simpa using hm
        by_cases hf : (replaceFirstList u r c).2 = true
        · rw [replaceFirstList] at hflag
          simp [hm2, hf] at hflag
        · have hf2 : (replaceFirstList u r c).2 = false := by simpa using hf
          rw [replaceFirstList] at hflag ⊢
          simp only [hm2, hf2, Bool.false_eq_true, if_false] at hflag ⊢
          rw [ih ns (by omega) hflag]

/-! ## C10: a resolved upload rewrites exactly the first matching node -/

/-- Claim C10 (amended): when `onUpload` resolves and the editor view has
not been destroyed, the document keeps its exact skeleton (types and tree
structure) and its document-order attribute list undergoes
`specUpdateFirst`: at most one node is modified, namely the first image
node in document order whose `src` equals the temporary blob URL; that
node's `src` becomes the result URL while `width`/`height` are taken from
the result when present and nonzero (JavaScript `||` treats a zero
dimension as absent, falling back to the node's existing attribute — see
the counterexample) and all of its other attributes, and all other nodes,
are unchanged; a traversal that finds no matching node changes nothing.
The blob URL is revoked and no error callback fires. -/
theorem uploadImage_replace_first (doc : List PMNode) (pos : Nat)
    (fileName u : String) (r : ImageUploadResult) (hasOnError : Bool) :
    (uploadImageCommand doc pos fileName u true (UploadOutcome.resolved r)
        false hasOnError).uncaught = none ∧
    (uploadImageCommand doc pos fileName u true (UploadOutcome.resolved r)
        false hasOnError).returned = true ∧
    (uploadImageCommand doc pos fileName u true (UploadOutcome.resolved r)
        false hasOnError).onErrorCalls = [] ∧
    (uploadImageCommand doc pos fileName u true (UploadOutcome.resolved r)
        false hasOnError).revoked = [u] ∧
    shapeL ((uploadImageCommand doc pos fileName u true (UploadOutcome.resolved r)
        false hasOnError).doc) =
      shapeL (insertNode pos (placeholderNode u fileName) doc) ∧
    flatL ((uploadImageCommand doc pos fileName u true (UploadOutcome.resolved r)
        false hasOnError).doc) =
      specUpdateFirst u r (flatL (insertNode pos (placeholderNode u fileName) doc)) ∧
    (∀ l : List PMNode, hasMatchFlat u (flatL l) = false →
      (replaceFirstList u r l).1 = l) := by
  refine ⟨rfl, rfl, rfl, rfl,
    (replaceFirstList_spec u r (insertNode pos (placeholderNode u fileName) doc)).1,
    (replaceFirstList_spec u r (insertNode pos (placeholderNode u fileName) doc)).2.1,
    ?_⟩
  intro l hl
  refine replaceFirstList_not_found u r (sizeOf l) l le_rfl ?_
  rw [(replaceFirstList_spec u r l).2.2]
  exact hl

/-- Claim C10 counterexample to the claim as stated: the upload result
carries `width = 0` — present, but falsy in JavaScript — so the code keeps
the node's existing width attribute instead of taking the result's; height
(nonzero) is taken from the result. -/
theorem uploadImage_replace_first_counterexample :
    (uploadImageCommand [] 0 "a.png" "blob:u1" true
        (UploadOutcome.resolved ⟨"https://cdn/a.png", some 0, some 50⟩)
        false true).doc =
      [PMNode.mk "image" ⟨some "https://cdn/a.png", some "a.png", none, some 50⟩ []] ∧
    (⟨"https://cdn/a.png", some 0, some 50⟩ : ImageUploadResult).width = some 0 ∧
    ¬ (uploadImageCommand [] 0 "a.png" "blob:u1" true
        (UploadOutcome.resolved ⟨"https://cdn/a.png", some 0, some 50⟩)
        false true).doc =
      [PMNode.mk "image" ⟨some "https://cdn/a.png", some "a.png", some 0, some 50⟩ []] := by
  have h1 : (uploadImageCommand [] 0 "a.png" "blob:u1" true
      (UploadOutcome.resolved ⟨"https://cdn/a.png", some 0, some 50⟩)
      false true).doc =
      [PMNode.mk "image" ⟨some "https://cdn/a.png", some "a.png", none, some 50⟩ []] := by
    show (replaceFirstList "blob:u1" ⟨"https://cdn/a.png", some 0, some 50⟩
        (insertNode 0 (placeholderNode "blob:u1" "a.png") [])).1 =
      [PMNode.mk "image" ⟨some "https://cdn/a.png", some "a.png", none, some 50⟩ []]
    simp [insertNode, placeholderNode, replaceFirstList, isImgMatch, updAttrs, jsOrN]
  refine ⟨h1, rfl, ?_⟩
  rw [h1]
  simp

/-- Claim C10 witness: a resolved upload (width 120 from the result)
against a one-paragraph document. -/
theorem uploadImage_replace_first_witness :
    (uploadImageCommand [PMNode.mk "paragraph" ⟨none, none, none, none⟩ []] 0
        "a.png" "blob:u1" true
        (UploadOutcome.resolved ⟨"https://cdn/a.png", some 120, none⟩)
        false false).uncaught = none ∧
    (uploadImageCommand [PMNode.mk "paragraph" ⟨none, none, none, none⟩ []] 0
        "a.png" "blob:u1" true
        (UploadOutcome.resolved ⟨"https://cdn/a.png", some 120, none⟩)
        false false).returned = true ∧
    (uploadImageCommand [PMNode.mk "paragraph" ⟨none, none, none, none⟩ []] 0
        "a.png" "blob:u1" true
        (UploadOutcome.resolved ⟨"https://cdn/a.png", some 120, none⟩)
        false false).onErrorCalls = [] ∧
    (uploadImageCommand [PMNode.mk "paragraph" ⟨none, none, none, none⟩ []] 0
        "a.png" "blob:u1" true
        (UploadOutcome.resolved ⟨"https://cdn/a.png", some 120, none⟩)
        false false).revoked = ["blob:u1"] ∧
    shapeL ((uploadImageCommand [PMNode.mk "paragraph" ⟨none, none, none, none⟩ []] 0
        "a.png" "blob:u1" true
        (UploadOutcome.resolved ⟨"https://cdn/a.png", some 120, none⟩)
        false false).doc) =
      shapeL (insertNode 0 (placeholderNode "blob:u1" "a.png")
        [PMNode.mk "paragraph" ⟨none, none, none, none⟩ []]) ∧
    flatL ((uploadImageCommand [PMNode.mk "paragraph" ⟨none, none, none, none⟩ []] 0
        "a.png" "blob:u1" true
        (UploadOutcome.resolved ⟨"https://cdn/a.png", some 120, none⟩)
        false false).doc) =
      specUpdateFirst "blob:u1" ⟨"https://cdn/a.png", some 120, none⟩
        (flatL (insertNode 0 (placeholderNode "blob:u1" "a.png")
          [PMNode.mk "paragraph" ⟨none, none, none, none⟩ []])) ∧
    (∀ l : List PMNode, hasMatchFlat "blob:u1" (flatL l) = false →
      (replaceFirstList "blob:u1" ⟨"https://cdn/a.png", some 120, none⟩ l).1 = l) :=
  uploadImage_replace_first [PMNode.mk "paragraph" ⟨none, none, none, none⟩ []] 0
    "a.png" "blob:u1" ⟨"https://cdn/a.png", some 120, none⟩ false
